import Mathlib

/-!
Shallow embedding of the Fadu card game frontend (src/src/App.js) and of the
engine operations its spec describes. JS arrays become Lean lists; `pop` on a
JS array removes the last element and returns `undefined` on an empty array,
which we model with `Option`. The comparator passed to `Array.prototype.sort`
in `initializeDeck` ignores its arguments and returns a fresh random number on
each call, so we model the sort as an insertion sort consuming an abstract
stream of Boolean decisions (indexed by a counter): any ECMAScript-conformant
sort returns a permutation of its input, which is the only property the
claims rely on.
-/

inductive Suit where
  | Hearts
  | Diamonds
  | Clubs
  | Spades
deriving DecidableEq, Repr

structure Card where
  suit : Suit
  value : Nat
deriving DecidableEq, Repr

/-- The four suits, in the order the source lists them. -/
def suits : List Suit := [Suit.Hearts, Suit.Diamonds, Suit.Clubs, Suit.Spades]

/-- `Array.from(\x7blength: 13\x7d, (_, i) => i + 1)`: the values 1..13. -/
def values : List Nat := (List.range 13).map (fun i => i + 1)

/-- The deck built by the nested loops of `initializeDeck`, before sorting:
for each suit, for each value, push `\x7bsuit, value\x7d`. -/
def baseDeck : List Card :=
  suits.flatMap (fun s => values.map (fun v => { suit := s, value := v }))

/-- One step of the comparator-driven insertion: `rand k` is the sign test of
the k-th call of the comparator `() => Math.random() - 0.5` (true = the new
card sorts before the head). Returns the new list and the next counter. -/
def insertRand (rand : Nat → Bool) (c : Card) : Nat → List Card → List Card × Nat
  | k, [] => ([c], k)
  | k, x :: xs =>
      if rand k then (c :: x :: xs, k + 1)
      else
        let r := insertRand rand c (k + 1) xs
        (x :: r.1, r.2)

/-- The comparator-driven sort modelling `newDeck.sort(() => Math.random() - 0.5)`.
Any conformant `Array.prototype.sort` result is a permutation of its input;
insertion sort driven by the comparator's decision stream realises that. -/
def sortRand (rand : Nat → Bool) : Nat → List Card → List Card × Nat
  | k, [] => ([], k)
  | k, x :: xs =>
      let r := sortRand rand k xs
      insertRand rand x r.2 r.1

/-- `initializeDeck` from App.js: build the 52 cards suit-by-suit, value 1..13,
then shuffle with the random comparator (modelled by the stream `rand`). -/
def initializeDeck (rand : Nat → Bool) : List Card :=
  (sortRand rand 0 baseDeck).1

theorem insertRand_perm (rand : Nat → Bool) (c : Card) :
    ∀ (k : Nat) (l : List Card), ((insertRand rand c k l).1).Perm (c :: l) := by
  intro k l
  induction l generalizing k with
  | nil => simp [insertRand]
  | cons x xs ih =>
      by_cases h : rand k
      · simp [insertRand, h]
      · simp only [insertRand, h, if_false]
        exact ((ih (k + 1)).cons x).trans (List.Perm.swap c x xs)

theorem sortRand_perm (rand : Nat → Bool) :
    ∀ (k : Nat) (l : List Card), ((sortRand rand k l).1).Perm l := by
  intro k l
  induction l generalizing k with
  | nil => simp [sortRand]
  | cons x xs ih =>
      simp only [sortRand]
      exact (insertRand_perm rand x _ _).trans ((ih k).cons x)

theorem initializeDeck_perm (rand : Nat → Bool) :
    (initializeDeck rand).Perm baseDeck :=
  sortRand_perm rand 0 baseDeck

theorem initializeDeck_length (rand : Nat → Bool) :
    (initializeDeck rand).length = 52 := by
  rw [(initializeDeck_perm rand).length_eq]
  decide

theorem baseDeck_count (s : Suit) (v : Nat) (h1 : 1 ≤ v) (h2 : v ≤ 13) :
    baseDeck.count { suit := s, value := v } = 1 := by
  interval_cases v <;> cases s <;> decide

/-- C2: `initializeDeck` always returns exactly 52 cards, and every
(suit, value) pair with value between 1 and 13 occurs exactly once — no card
is dropped or duplicated, for every possible comparator decision stream. -/
theorem initializeDeck_complete (rand : Nat → Bool) :
    (initializeDeck rand).length = 52 ∧
    ∀ (s : Suit) (v : Nat), 1 ≤ v → v ≤ 13 →
      (initializeDeck rand).count { suit := s, value := v } = 1 := by
  refine ⟨initializeDeck_length rand, fun s v h1 h2 => ?_⟩
  rw [(initializeDeck_perm rand).count_eq]
  exact baseDeck_count s v h1 h2

/-- C2 witness: the Hearts 7 occurs exactly once in a concretely shuffled deck. -/
theorem initializeDeck_complete_witness :
    (1 ≤ 7 ∧ 7 ≤ 13) ∧
      (initializeDeck (fun _ => true)).count { suit := Suit.Hearts, value := 7 } = 1 :=
  ⟨⟨by decide, by decide⟩,
    (initializeDeck_complete (fun _ => true)).2 Suit.Hearts 7 (by decide) (by decide)⟩

/-- C3: the shuffle step used when building a deck is a bijection on the
deck's contents: for every input deck and every comparator decision stream,
the multiset of cards after sorting equals the multiset before. -/
theorem sortRand_multiset_eq (rand : Nat → Bool) (k : Nat) (deck : List Card) :
    (↑((sortRand rand k deck).1) : Multiset Card) = ↑deck :=
  Multiset.coe_eq_coe.mpr (sortRand_perm rand k deck)

/-- A player as created by `handleStartGame`: id, display name, hand, score.
The hand is a list of `Option Card` because JS `pop` on an exhausted deck
returns `undefined`, which `push` stores. Scores start at 0 and only grow by
`+= 4`, so `Nat` is faithful. -/
structure Player where
  id : String
  name : String
  hand : List (Option Card)
  score : Nat
deriving DecidableEq, Repr

/-- The React state of `App` that the game logic reads and writes. -/
structure GameState where
  gameStarted : Bool
  numPlayers : Nat
  numRounds : Nat
  currentRound : Nat
  players : List Player
  currentPlayer : Nat
  deck : List Card
  tableCard : Option Card
  showWinner : Bool
  gameWinners : List Player
  hasDrawn : Bool
deriving Repr

/-- JS `deck.pop()`: remove and return the last element; `undefined` (none)
and the unchanged empty array when the deck is empty. -/
def jsPop (d : List Card) : Option Card × List Card :=
  (d.getLast?, d.dropLast)

/-- One pass of the dealing loop body: `for (let player of players)
\x7b player.hand.push(deck.pop()) \x7d` — each player in order pushes one
popped entry onto the end of their hand. -/
def dealRow : List Player → List Card → List Player × List Card
  | [], d => ([], d)
  | p :: ps, d =>
      let pd := jsPop d
      let rest := dealRow ps pd.2
      ({ p with hand := p.hand ++ [pd.1] } :: rest.1, rest.2)

/-- The outer dealing loop `for (let i = 0; i < 5; i++)`, generalised to `n`
passes. -/
def dealRounds : Nat → List Player → List Card → List Player × List Card
  | 0, ps, d => (ps, d)
  | n + 1, ps, d =>
      let r := dealRow ps d
      dealRounds n r.1 r.2

/-- The fresh roster `handleStartGame` builds: player 0 gets the local
`userId` ("player1"), the rest get "player2", ...; empty hands, score 0. -/
def mkPlayers (n : Nat) : List Player :=
  (List.range n).map (fun i =>
    { id := if i = 0 then "player1" else "player" ++ toString (i + 1),
      name := "Player " ++ toString (i + 1),
      hand := [], score := 0 })

/-- `handleStartGame`: fresh shuffled deck, fresh roster, deal 5 to each
player, then pop the table card from the same (mutated) deck array, reset
round/turn/hasDrawn. `setDeck(newDeck)` stores the array later mutated by
`newDeck.pop()`, so the stored deck excludes the table card. -/
def handleStartGame (rand : Nat → Bool) (s : GameState) : GameState :=
  let newDeck := initializeDeck rand
  let dealt := dealRounds 5 (mkPlayers s.numPlayers) newDeck
  let tc := jsPop dealt.2
  { s with
      deck := tc.2
      players := dealt.1
      tableCard := tc.1
      currentRound := 1
      gameStarted := true
      currentPlayer := 0
      hasDrawn := false }

/-- JS `Math.max(...)` over a list of scores: `none` models the `-Infinity`
result on an empty list (no score ever compares equal to it). -/
def jsMax : List Nat → Option Nat
  | [] => none
  | x :: xs =>
      match jsMax xs with
      | none => some x
      | some m => some (max x m)

/-- `endGame`: winners are the players whose score equals the maximum score. -/
def endGame (s : GameState) : GameState :=
  let maxScore := jsMax (s.players.map Player.score)
  { s with
      gameWinners := s.players.filter (fun p => some p.score = maxScore)
      showWinner := true }

/-- `startNewRound`: enqueue `currentRound + 1`; the end-of-game test reads
the stale `currentRound` from the render closure, so the game ends when the
pre-increment round is already ≥ `numRounds`. Otherwise re-deal: fresh deck,
hands cleared then 5 cards each, table card popped from the same deck,
turn back to player 0, `hasDrawn` reset. -/
def startNewRound (rand : Nat → Bool) (s : GameState) : GameState :=
  let s1 := { s with currentRound := s.currentRound + 1 }
  if s.currentRound ≥ s.numRounds then endGame s1
  else
    let newDeck := initializeDeck rand
    let cleared := s.players.map (fun p => { p with hand := [] })
    let dealt := dealRounds 5 cleared newDeck
    let tc := jsPop dealt.2
    { s1 with
        deck := tc.2
        players := dealt.1
        tableCard := tc.1
        currentPlayer := 0
        hasDrawn := false }

/-- `newPlayers[currentPlayer].score += 4` (in-bounds index; JS would throw
on an out-of-bounds one, which the claims exclude). -/
def bumpScore : List Player → Nat → List Player
  | [], _ => []
  | p :: ps, 0 => { p with score := p.score + 4 } :: ps
  | p :: ps, n + 1 => p :: bumpScore ps n

/-- `handlePlayerWin`: award 4 points to the current player, then start the
next round. -/
def handlePlayerWin (rand : Nat → Bool) (s : GameState) : GameState :=
  startNewRound rand { s with players := bumpScore s.players s.currentPlayer }

/-- The Draw Card button's `disabled` condition: `hasDrawn || (tableCard &&
players[currentPlayer]?.hand.some(card => card.value === tableCard.value))`.
Optional chaining makes the whole right conjunct `undefined` (falsy) when the
current player is missing; a `null` table card short-circuits it too. -/
def drawButtonDisabled (s : GameState) : Bool :=
  s.hasDrawn ||
    (match s.tableCard, s.players[s.currentPlayer]? with
     | some tc, some p =>
         p.hand.any (fun c =>
           match c with
           | some card => card.value = tc.value
           | none => false)
     | _, _ => false)

/-- The card-count the invariant claims speak about: deck length plus the sum
of all hand lengths plus 1 for the table card. -/
def cardCount (s : GameState) : Nat :=
  s.deck.length + (s.players.map (fun p => p.hand.length)).sum + 1

theorem dealRow_players_length (ps : List Player) (d : List Card) :
    (dealRow ps d).1.length = ps.length := by
  induction ps generalizing d with
  | nil => simp [dealRow]
  | cons p ps ih => simp [dealRow, ih]

theorem dealRow_deck_length (ps : List Player) (d : List Card) :
    (dealRow ps d).2.length = d.length - ps.length := by
  induction ps generalizing d with
  | nil => simp [dealRow]
  | cons p ps ih =>
      simp only [dealRow, ih, jsPop, List.length_dropLast, List.length_cons]
      omega

theorem dealRow_hand_lengths (ps : List Player) (d : List Card) :
    (dealRow ps d).1.map (fun p => p.hand.length) =
      ps.map (fun p => p.hand.length + 1) := by
  induction ps generalizing d with
  | nil => simp [dealRow]
  | cons p ps ih => simp [dealRow, ih]

theorem dealRow_scores (ps : List Player) (d : List Card) :
    (dealRow ps d).1.map Player.score = ps.map Player.score := by
  induction ps generalizing d with
  | nil => simp [dealRow]
  | cons p ps ih => simp [dealRow, ih]

theorem dealRounds_players_length (n : Nat) (ps : List Player) (d : List Card) :
    (dealRounds n ps d).1.length = ps.length := by
  induction n generalizing ps d with
  | zero => simp [dealRounds]
  | succ n ih => simp [dealRounds, ih, dealRow_players_length]

theorem dealRounds_deck_length (n : Nat) (ps : List Player) (d : List Card) :
    (dealRounds n ps d).2.length = d.length - n * ps.length := by
  induction n generalizing ps d with
  | zero => simp [dealRounds]
  | succ n ih =>
      simp only [dealRounds, ih, dealRow_players_length, dealRow_deck_length]
      have : (n + 1) * ps.length = ps.length + n * ps.length := by ring
      omega

theorem dealRounds_hand_lengths (n : Nat) (ps : List Player) (d : List Card) :
    (dealRounds n ps d).1.map (fun p => p.hand.length) =
      ps.map (fun p => p.hand.length + n) := by
  induction n generalizing ps d with
  | zero => simp [dealRounds]
  | succ n ih =>
      simp only [dealRounds, ih]
      rw [show (fun p : Player => p.hand.length + n) =
            (fun m => m + n) ∘ (fun p : Player => p.hand.length) from rfl]
      rw [← List.map_map, dealRow_hand_lengths, List.map_map]
      exact List.map_congr_left (fun p _ => by simp; omega)

theorem dealRounds_scores (n : Nat) (ps : List Player) (d : List Card) :
    (dealRounds n ps d).1.map Player.score = ps.map Player.score := by
  induction n generalizing ps d with
  | zero => simp [dealRounds]
  | succ n ih => simp [dealRounds, ih, dealRow_scores]

theorem dealRow_isSome (ps : List Player) (d : List Card)
    (hall : ∀ p ∈ ps, ∀ c ∈ p.hand, c.isSome)
    (hlen : ps.length ≤ d.length) :
    ∀ p ∈ (dealRow ps d).1, ∀ c ∈ p.hand, c.isSome := by
  induction ps generalizing d with
  | nil => simp [dealRow]
  | cons p ps ih =>
      intro q hq c hc
      simp only [dealRow, List.mem_cons] at hq
      rcases hq with hq | hq
      · subst hq
        simp only [List.mem_append, List.mem_singleton] at hc
        rcases hc with hc | hc
        · exact hall p (List.mem_cons_self p ps) c hc
        · subst hc
          have hd : d ≠ [] := by
            intro h0
            rw [h0] at hlen
            simp at hlen
          simpa [jsPop] using List.getLast?_isSome.mpr hd
      · refine ih (jsPop d).2 (fun r hr => hall r (List.mem_cons_of_mem p hr)) ?_ q hq c hc
        simp only [jsPop, List.length_dropLast]
        simp only [List.length_cons] at hlen
        omega

theorem dealRounds_isSome (n : Nat) (ps : List Player) (d : List Card)
    (hall : ∀ p ∈ ps, ∀ c ∈ p.hand, c.isSome)
    (hlen : n * ps.length ≤ d.length) :
    ∀ p ∈ (dealRounds n ps d).1, ∀ c ∈ p.hand, c.isSome := by
  induction n generalizing ps d with
  | zero => simpa [dealRounds] using hall
  | succ n ih =>
      simp only [dealRounds]
      refine ih _ _ (dealRow_isSome ps d hall ?_) ?_
      · calc ps.length = 1 * ps.length := by ring
          _ ≤ (n + 1) * ps.length := Nat.mul_le_mul_right _ (by omega)
          _ ≤ d.length := hlen
      · rw [dealRow_players_length, dealRow_deck_length]
        have : (n + 1) * ps.length = n * ps.length + ps.length := by ring
        omega

theorem mkPlayers_length (n : Nat) : (mkPlayers n).length = n := by
  simp [mkPlayers]

theorem mkPlayers_hand (n : Nat) : ∀ p ∈ mkPlayers n, p.hand = [] := by
  intro p hp
  simp only [mkPlayers, List.mem_map] at hp
  obtain ⟨i, _, rfl⟩ := hp
  rfl

theorem fresh_deal_sum (rand : Nat → Bool) (ps : List Player)
    (hempty : ∀ p ∈ ps, p.hand = []) :
    ((dealRounds 5 ps (initializeDeck rand)).1.map (fun p => p.hand.length)).sum =
      5 * ps.length := by
  rw [dealRounds_hand_lengths]
  have h5 : ∀ p ∈ ps, (fun p : Player => p.hand.length + 5) p = (fun _ : Player => 5) p := by
    intro p hp
    simp [hempty p hp]
  rw [List.map_congr_left h5]
  simp [List.map_const', mul_comm]

/-- C1 (amended: for rosters of at most 10 players — the setup form permits
2..8 — since with 11 or more the 52-card deck is exhausted mid-deal and JS
`pop` starts returning `undefined`): immediately after `handleStartGame`,
and after a completed (non-game-ending) `startNewRound`, the deck length
plus the sum of all hand lengths plus 1 for the table card equals 52. -/
theorem cardCount_after_start_and_newRound (rand : Nat → Bool) (s : GameState) :
    (s.numPlayers ≤ 10 → cardCount (handleStartGame rand s) = 52) ∧
    (s.players.length ≤ 10 → s.currentRound < s.numRounds →
      cardCount (startNewRound rand s) = 52) := by
  constructor
  · intro h
    have hsum := fresh_deal_sum rand (mkPlayers s.numPlayers) (mkPlayers_hand _)
    have hdeck : (dealRounds 5 (mkPlayers s.numPlayers) (initializeDeck rand)).2.length =
        52 - 5 * s.numPlayers := by
      rw [dealRounds_deck_length, initializeDeck_length, mkPlayers_length]
    simp only [cardCount, handleStartGame, jsPop, List.length_dropLast]
    rw [hsum, hdeck, mkPlayers_length]
    omega
  · intro h hr
    have hcond : ¬ (s.currentRound ≥ s.numRounds) := by omega
    have hclear : ∀ p ∈ s.players.map (fun p => { p with hand := [] }),
        p.hand = [] := by
      intro p hp
      simp only [List.mem_map] at hp
      obtain ⟨q, _, rfl⟩ := hp
      rfl
    have hsum := fresh_deal_sum rand (s.players.map (fun p => { p with hand := [] })) hclear
    have hdeck : (dealRounds 5 (s.players.map (fun p => { p with hand := [] }))
        (initializeDeck rand)).2.length = 52 - 5 * s.players.length := by
      rw [dealRounds_deck_length, initializeDeck_length, List.length_map]
    simp only [startNewRound, if_neg hcond, cardCount, jsPop, List.length_dropLast]
    rw [hsum, hdeck, List.length_map]
    omega

/-- A minimal pre-start state as the setup screen produces it. -/
def baseState : GameState :=
  { gameStarted := false, numPlayers := 2, numRounds := 5, currentRound := 1,
    players := [], currentPlayer := 0, deck := [], tableCard := none,
    showWinner := false, gameWinners := [], hasDrawn := false }

/-- C1 counterexample: starting a game with an 11-player roster (the setup
input's HTML min/max of 2/8 does not stop `setNumPlayers(11)`, and
`handleStartGame` performs no roster check) exhausts the 52-card deck while
dealing: the deck ends empty, the 11 hands hold 55 entries, and the count
`deck + hands + 1` is 56, not 52. -/
theorem cardCount_start_eleven_players :
    ¬ (cardCount (handleStartGame (fun _ => false)
        { baseState with numPlayers := 11 }) = 52) := by
  set_option maxRecDepth 10000 in decide

/-- An in-progress two-player state used to instantiate round-level theorems. -/
def roundState : GameState :=
  { gameStarted := true, numPlayers := 2, numRounds := 5, currentRound := 2,
    players := [
      { id := "player1", name := "Player 1",
        hand := [some { suit := Suit.Hearts, value := 3 }], score := 4 },
      { id := "player2", name := "Player 2",
        hand := [some { suit := Suit.Spades, value := 9 }], score := 4 }],
    currentPlayer := 0, deck := [{ suit := Suit.Clubs, value := 2 }],
    tableCard := some { suit := Suit.Diamonds, value := 7 },
    showWinner := false, gameWinners := [], hasDrawn := false }

/-- C1 witness: at the concrete states the hypotheses hold and the count is
52 after both `handleStartGame` and a completed `startNewRound`. -/
theorem cardCount_after_start_and_newRound_witness :
    (baseState.numPlayers ≤ 10 ∧
      cardCount (handleStartGame (fun _ => true) baseState) = 52) ∧
    (roundState.players.length ≤ 10 ∧ roundState.currentRound < roundState.numRounds ∧
      cardCount (startNewRound (fun _ => true) roundState) = 52) :=
  ⟨⟨by decide, (cardCount_after_start_and_newRound (fun _ => true) baseState).1 (by decide)⟩,
   ⟨by decide, by decide,
     (cardCount_after_start_and_newRound (fun _ => true) roundState).2 (by decide) (by decide)⟩⟩

theorem cleared_hand (ps : List Player) :
    ∀ p ∈ ps.map (fun p => { p with hand := ([] : List (Option Card)) }), p.hand = [] := by
  intro p hp
  simp only [List.mem_map] at hp
  obtain ⟨q, _, rfl⟩ := hp
  rfl

/-- C4: for a state whose round is not the last (so the game does not end)
and a roster of at most 10 players, `startNewRound` deals exactly 5 real
cards to every player regardless of their previous hands, sets the table
card by removing one card from the fresh deck (leaving 52 - 5n - 1 cards),
resets `hasDrawn` to false and the turn holder to player index 0. -/
theorem startNewRound_redeal (rand : Nat → Bool) (s : GameState)
    (hr : s.currentRound < s.numRounds) (hsz : s.players.length ≤ 10) :
    (startNewRound rand s).players.length = s.players.length ∧
    (∀ p ∈ (startNewRound rand s).players, p.hand.length = 5 ∧ ∀ c ∈ p.hand, c.isSome) ∧
    (startNewRound rand s).tableCard.isSome ∧
    (startNewRound rand s).deck.length + (5 * s.players.length + 1) = 52 ∧
    (startNewRound rand s).hasDrawn = false ∧
    (startNewRound rand s).currentPlayer = 0 := by
  have hcond : ¬ (s.currentRound ≥ s.numRounds) := by omega
  simp only [startNewRound, if_neg hcond]
  have hclearlen : (s.players.map (fun p => { p with hand := ([] : List (Option Card)) })).length
      = s.players.length := List.length_map _ _
  have hdeck2 : (dealRounds 5 (s.players.map (fun p => { p with hand := [] }))
      (initializeDeck rand)).2.length = 52 - 5 * s.players.length := by
    rw [dealRounds_deck_length, initializeDeck_length, hclearlen]
  refine ⟨?_, ?_, ?_, ?_, by trivial, by trivial⟩
  · simp only [dealRounds_players_length, hclearlen]
  · intro p hp
    constructor
    · have hmem : p.hand.length ∈
          (dealRounds 5 (s.players.map (fun p => { p with hand := [] }))
            (initializeDeck rand)).1.map (fun p => p.hand.length) :=
        List.mem_map_of_mem _ hp
      rw [dealRounds_hand_lengths] at hmem
      have h5 : ∀ q ∈ s.players.map (fun p => { p with hand := ([] : List (Option Card)) }),
          (fun p : Player => p.hand.length + 5) q = (fun _ : Player => 5) q := by
        intro q hq
        simp [cleared_hand s.players q hq]
      rw [List.map_congr_left h5] at hmem
      simp only [List.mem_map] at hmem
      obtain ⟨q, hq, hql⟩ := hmem
      simpa using hql.symm
    · refine dealRounds_isSome 5 _ _ ?_ ?_ p hp
      · intro q hq c hc
        rw [cleared_hand s.players q hq] at hc
        simp at hc
      · rw [hclearlen, initializeDeck_length]
        omega
  · simp only [jsPop]
    rw [List.getLast?_isSome]
    intro hnil
    have := hdeck2
    rw [hnil] at this
    simp at this
    omega
  · simp only [jsPop, List.length_dropLast, hdeck2]
    omega

/-- C4 witness: at the concrete in-progress state the hypotheses hold and
`startNewRound` re-deals as stated. -/
theorem startNewRound_redeal_witness :
    (roundState.currentRound < roundState.numRounds ∧ roundState.players.length ≤ 10) ∧
    ((startNewRound (fun _ => false) roundState).players.length = roundState.players.length ∧
     (∀ p ∈ (startNewRound (fun _ => false) roundState).players,
        p.hand.length = 5 ∧ ∀ c ∈ p.hand, c.isSome) ∧
     (startNewRound (fun _ => false) roundState).tableCard.isSome ∧
     (startNewRound (fun _ => false) roundState).deck.length +
        (5 * roundState.players.length + 1) = 52 ∧
     (startNewRound (fun _ => false) roundState).hasDrawn = false ∧
     (startNewRound (fun _ => false) roundState).currentPlayer = 0) :=
  ⟨⟨by decide, by decide⟩,
    startNewRound_redeal (fun _ => false) roundState (by decide) (by decide)⟩

theorem jsMax_spec (l : List Nat) (hne : l ≠ []) :
    ∃ m, jsMax l = some m ∧ m ∈ l ∧ ∀ x ∈ l, x ≤ m := by
  induction l with
  | nil => exact absurd rfl hne
  | cons x xs ih =>
      by_cases hxs : xs = []
      · subst hxs
        exact ⟨x, rfl, by simp, by simp⟩
      · obtain ⟨m, hm, hmem, hle⟩ := ih hxs
        refine ⟨max x m, ?_, ?_, ?_⟩
        · simp [jsMax, hm]
        · rcases max_choice x m with h | h
          · rw [h]; exact List.mem_cons_self x xs
          · rw [h]; exact List.mem_cons_of_mem x hmem
        · intro z hz
          rcases List.mem_cons.mp hz with h | h
          · subst h; exact le_max_left _ _
          · exact (hle z h).trans (le_max_right _ _)

/-- C5: `startNewRound` always increments the round counter; with a nonempty
roster and the winner overlay not yet shown, the game ends exactly when the
incremented round counter exceeds the configured total, and in that case the
reported winner set is exactly the set of players whose score equals the
maximum score over all players (so tied players are all reported). -/
theorem startNewRound_endgame (rand : Nat → Bool) (s : GameState)
    (hne : s.players ≠ []) (hsw : s.showWinner = false) :
    (startNewRound rand s).currentRound = s.currentRound + 1 ∧
    ((startNewRound rand s).showWinner = true ↔ s.numRounds < s.currentRound + 1) ∧
    (s.numRounds < s.currentRound + 1 →
      ∀ p, p ∈ (startNewRound rand s).gameWinners ↔
        (p ∈ s.players ∧ ∀ q ∈ s.players, q.score ≤ p.score)) := by
  by_cases hcond : s.currentRound ≥ s.numRounds
  · have heq : startNewRound rand s = endGame { s with currentRound := s.currentRound + 1 } := by
      unfold startNewRound
      rw [if_pos hcond]
    rw [heq]
    refine ⟨rfl, ⟨fun _ => by omega, fun _ => rfl⟩, ?_⟩
    intro _ p
    have hne2 : s.players.map Player.score ≠ [] := by
      simpa using hne
    obtain ⟨m, hm, hmem, hle⟩ := jsMax_spec (s.players.map Player.score) hne2
    have hwin : (endGame { s with currentRound := s.currentRound + 1 }).gameWinners =
        s.players.filter (fun p => some p.score = jsMax (s.players.map Player.score)) := rfl
    rw [hwin]
    simp only [List.mem_filter, hm, decide_eq_true_eq, Option.some_inj]
    constructor
    · rintro ⟨hp, hpm⟩
      refine ⟨hp, fun q hq => ?_⟩
      rw [hpm]
      exact hle q.score (List.mem_map_of_mem _ hq)
    · rintro ⟨hp, hall⟩
      refine ⟨hp, ?_⟩
      obtain ⟨q, hq, hqm⟩ := List.mem_map.mp hmem
      exact le_antisymm (hle p.score (List.mem_map_of_mem _ hp)) (hqm ▸ hall q hq)
  · have h1 : ¬ (s.numRounds < s.currentRound + 1) := by omega
    have heq : (startNewRound rand s).showWinner = s.showWinner := by
      unfold startNewRound
      rw [if_neg hcond]
    have heq2 : (startNewRound rand s).currentRound = s.currentRound + 1 := by
      unfold startNewRound
      rw [if_neg hcond]
    refine ⟨heq2, ?_, fun h => absurd h h1⟩
    rw [heq, hsw]
    exact ⟨fun h => absurd h (by simp), fun h => absurd h h1⟩

/-- The two-player state at its last configured round: both players are tied
at 4 points, so ending the game must report both as winners. -/
def endState : GameState := { roundState with currentRound := 5 }

/-- C5 witness: at the tied two-player state on the final round, the round
counter increments, the game ends, and both tied players are winners. -/
theorem startNewRound_endgame_witness :
    (endState.players ≠ [] ∧ endState.showWinner = false) ∧
    ((startNewRound (fun _ => true) endState).currentRound = endState.currentRound + 1 ∧
     ((startNewRound (fun _ => true) endState).showWinner = true ↔
        endState.numRounds < endState.currentRound + 1) ∧
     (endState.numRounds < endState.currentRound + 1 →
       ∀ p, p ∈ (startNewRound (fun _ => true) endState).gameWinners ↔
         (p ∈ endState.players ∧ ∀ q ∈ endState.players, q.score ≤ p.score))) :=
  ⟨⟨by decide, by decide⟩,
    startNewRound_endgame (fun _ => true) endState (by decide) (by decide)⟩

/-- The validation-error taxonomy the spec gives for the engine. -/
inductive GameError where
  | NotYourTurn
  | AlreadyDrawn
  | EmptyDeckError
  | InvalidCardIndex
  | IneligibleDraw
deriving DecidableEq, Repr

/-- An engine-side player: stable id, hand, score. -/
structure EPlayer where
  id : String
  hand : List Card
  score : Nat
deriving DecidableEq, Repr

/-- The engine-side session state the spec's rule-engine operations act on. -/
structure EngineState where
  players : List EPlayer
  deck : List Card
  tableCard : Option Card
  turnIndex : Nat
  hasDrawn : Bool
deriving DecidableEq, Repr

/-- Modelled from the spec: the server-side `draw_card(playerId)` operation
of the rule engine, which is absent from src/ (the frontend `drawCard` only
sends the action over the WebSocket). Per spec §4.2: fail `NotYourTurn` if
the caller is not the current turn holder, fail `AlreadyDrawn` if `hasDrawn`
is set for this turn, fail `EmptyDeckError` on an empty deck; on success pop
one card from the designated end of the deck into the acting player's hand
and set `hasDrawn := true`. -/
def draw_card (pid : String) (s : EngineState) : Except GameError EngineState :=
  match s.players[s.turnIndex]? with
  | none => Except.error GameError.NotYourTurn
  | some cur =>
      if pid ≠ cur.id then Except.error GameError.NotYourTurn
      else if s.hasDrawn then Except.error GameError.AlreadyDrawn
      else
        match s.deck.getLast? with
        | none => Except.error GameError.EmptyDeckError
        | some c =>
            Except.ok { s with
              players := s.players.set s.turnIndex { cur with hand := cur.hand ++ [c] }
              deck := s.deck.dropLast
              hasDrawn := true }

/-- Modelled from the spec: the server-side `play_card(playerId, cardIndex)`
operation of the rule engine, absent from src/ (the frontend `playCard` only
sends the selected index over the WebSocket). Per spec §4.2: fail
`NotYourTurn` for a non-turn-holder, fail `InvalidCardIndex` when the index
is outside [0, hand.length); on success remove the card from the hand, make
it the table card, advance the turn in fixed rotation and reset `hasDrawn`. -/
def play_card (pid : String) (cardIndex : Int) (s : EngineState) :
    Except GameError EngineState :=
  match s.players[s.turnIndex]? with
  | none => Except.error GameError.NotYourTurn
  | some cur =>
      if pid ≠ cur.id then Except.error GameError.NotYourTurn
      else if cardIndex < 0 ∨ (cur.hand.length : Int) ≤ cardIndex then
        Except.error GameError.InvalidCardIndex
      else
        match cur.hand[cardIndex.toNat]? with
        | none => Except.error GameError.InvalidCardIndex
        | some c =>
            Except.ok { s with
              players := s.players.set s.turnIndex
                { cur with hand := cur.hand.eraseIdx cardIndex.toNat }
              tableCard := some c
              turnIndex := (s.turnIndex + 1) % s.players.length
              hasDrawn := false }

/-- The state after a `draw_card` request: a rejected request leaves the
session untouched. -/
def applyDraw (pid : String) (s : EngineState) : EngineState :=
  match draw_card pid s with
  | Except.ok s2 => s2
  | Except.error _ => s

/-- The state after a `play_card` request: a rejected request leaves the
session untouched. -/
def applyPlay (pid : String) (cardIndex : Int) (s : EngineState) : EngineState :=
  match play_card pid cardIndex s with
  | Except.ok s2 => s2
  | Except.error _ => s

/-- C6: once a `draw_card` succeeds in a turn, a second `draw_card` by the
same player in the same turn (no intervening `play_card`) is rejected with
`AlreadyDrawn` — the `hasDrawn` flag set by the first draw blocks it — and
the rejected request changes nothing. -/
theorem draw_card_twice (pid : String) (s s2 : EngineState)
    (h : draw_card pid s = Except.ok s2) :
    draw_card pid s2 = Except.error GameError.AlreadyDrawn ∧ applyDraw pid s2 = s2 := by
  unfold draw_card at h
  split at h
  · exact Except.noConfusion h
  next cur hcur =>
    split at h
    · exact Except.noConfusion h
    next hpid =>
      split at h
      · exact Except.noConfusion h
      next hdrawn =>
        split at h
        · exact Except.noConfusion h
        next c hlast =>
          injection h with h2
          have hlt : s.turnIndex < s.players.length := by
            by_contra hge
            rw [List.getElem?_eq_none (by omega)] at hcur
            cases hcur
          have hcur2 : s2.players[s2.turnIndex]? =
              some { cur with hand := cur.hand ++ [c] } := by
            rw [← h2]
            simp [List.getElem?_set, hlt]
          have hdrawn2 : s2.hasDrawn = true := by rw [← h2]
          have hfail : draw_card pid s2 = Except.error GameError.AlreadyDrawn := by
            unfold draw_card
            rw [hcur2]
            simp only [Option.some.injEq]
            rw [if_neg (show ¬ pid ≠ EPlayer.id { cur with hand := cur.hand ++ [c] } from
              fun hn => hpid hn)]
            rw [if_pos hdrawn2]
          refine ⟨hfail, ?_⟩
          unfold applyDraw
          rw [hfail]

/-- A concrete two-player engine state with player1 to move. -/
def engineState : EngineState :=
  { players := [
      { id := "player1", hand := [{ suit := Suit.Hearts, value := 2 }], score := 0 },
      { id := "player2", hand := [{ suit := Suit.Clubs, value := 8 }], score := 0 }],
    deck := [{ suit := Suit.Spades, value := 4 }, { suit := Suit.Diamonds, value := 11 }],
    tableCard := some { suit := Suit.Hearts, value := 9 },
    turnIndex := 0, hasDrawn := false }

/-- C6 witness: player1 draws once successfully; the immediate second draw
fails with `AlreadyDrawn` and leaves the state as it was. -/
theorem draw_card_twice_witness :
    draw_card "player1" engineState = Except.ok (applyDraw "player1" engineState) ∧
    (draw_card "player1" (applyDraw "player1" engineState) =
        Except.error GameError.AlreadyDrawn ∧
     applyDraw "player1" (applyDraw "player1" engineState) =
        applyDraw "player1" engineState) :=
  ⟨by rfl, draw_card_twice "player1" engineState (applyDraw "player1" engineState) (by rfl)⟩

/-- The id of the player whose turn it is, if the turn index is in range. -/
def currentHolderId (s : EngineState) : Option String :=
  (s.players[s.turnIndex]?).map EPlayer.id

/-- C7: a `draw_card` request from a player who is not the current turn
holder always fails with `NotYourTurn` and leaves every hand and the deck
unchanged. -/
theorem draw_card_not_turn (pid : String) (s : EngineState)
    (h : currentHolderId s ≠ some pid) :
    draw_card pid s = Except.error GameError.NotYourTurn ∧
    (applyDraw pid s).players.map EPlayer.hand = s.players.map EPlayer.hand ∧
    (applyDraw pid s).deck = s.deck := by
  have hd : draw_card pid s = Except.error GameError.NotYourTurn := by
    unfold draw_card
    cases hcur : s.players[s.turnIndex]? with
    | none => rfl
    | some cur =>
        have hne : pid ≠ cur.id := by
          intro heq
          exact h (by rw [currentHolderId, hcur]; simp [heq])
        simp only [Option.some.injEq]
        rw [if_pos hne]
  refine ⟨hd, ?_, ?_⟩ <;> rw [applyDraw, hd]

/-- C7 witness: player2 is not the turn holder in the concrete state, so
their draw request fails with `NotYourTurn` and changes nothing. -/
theorem draw_card_not_turn_witness :
    currentHolderId engineState ≠ some "player2" ∧
    (draw_card "player2" engineState = Except.error GameError.NotYourTurn ∧
     (applyDraw "player2" engineState).players.map EPlayer.hand =
        engineState.players.map EPlayer.hand ∧
     (applyDraw "player2" engineState).deck = engineState.deck) :=
  ⟨by decide, draw_card_not_turn "player2" engineState (by decide)⟩

/-- C8: a `play_card` request from the turn holder with a card index outside
[0, hand.length) — negative or too large — fails with `InvalidCardIndex` and
leaves every hand unchanged. -/
theorem play_card_invalid_index (pid : String) (cardIndex : Int) (s : EngineState)
    (cur : EPlayer) (hcur : s.players[s.turnIndex]? = some cur) (hpid : pid = cur.id)
    (hidx : cardIndex < 0 ∨ (cur.hand.length : Int) ≤ cardIndex) :
    play_card pid cardIndex s = Except.error GameError.InvalidCardIndex ∧
    (applyPlay pid cardIndex s).players.map EPlayer.hand =
      s.players.map EPlayer.hand := by
  have hp : play_card pid cardIndex s = Except.error GameError.InvalidCardIndex := by
    unfold play_card
    rw [hcur]
    simp only [Option.some.injEq]
    rw [if_neg (show ¬ pid ≠ cur.id from fun hn => hn hpid)]
    rw [if_pos hidx]
  refine ⟨hp, ?_⟩
  rw [applyPlay, hp]

/-- The first player of `engineState`, as a named value. -/
def p1 : EPlayer :=
  { id := "player1", hand := [{ suit := Suit.Hearts, value := 2 }], score := 0 }

/-- C8 witness: the turn holder plays index 5 with a 1-card hand; the request
fails with `InvalidCardIndex` and every hand is unchanged. -/
theorem play_card_invalid_index_witness :
    (engineState.players[engineState.turnIndex]? = some p1 ∧
     "player1" = p1.id ∧
     ((5 : Int) < 0 ∨ (p1.hand.length : Int) ≤ 5)) ∧
    (play_card "player1" 5 engineState = Except.error GameError.InvalidCardIndex ∧
     (applyPlay "player1" 5 engineState).players.map EPlayer.hand =
        engineState.players.map EPlayer.hand) :=
  ⟨⟨by decide, by decide, by decide⟩,
    play_card_invalid_index "player1" 5 engineState p1
      (by decide) (by decide) (by decide)⟩

/-- C9: whenever a table card exists and the current player's hand holds a
card of the same value, the Draw Card button is disabled — the draw action
is rejected for that turn. -/
theorem draw_disabled_on_match (s : GameState) (tc : Card) (p : Player) (c : Card)
    (htc : s.tableCard = some tc)
    (hp : s.players[s.currentPlayer]? = some p)
    (hc : some c ∈ p.hand) (hv : c.value = tc.value) :
    drawButtonDisabled s = true := by
  unfold drawButtonDisabled
  rw [htc, hp]
  simp only [Bool.or_eq_true]
  right
  rw [List.any_eq_true]
  exact ⟨some c, hc, by simp [hv]⟩

/-- The in-progress state with a table card matching the current player's
Hearts 3. -/
def matchState : GameState :=
  { roundState with tableCard := some { suit := Suit.Diamonds, value := 3 } }

/-- C9 witness: with a 3 on the table and a 3 in hand, the current player's
draw is disabled. -/
theorem draw_disabled_on_match_witness :
    (matchState.tableCard = some { suit := Suit.Diamonds, value := 3 } ∧
     matchState.players[matchState.currentPlayer]? =
        some { id := "player1", name := "Player 1",
               hand := [some { suit := Suit.Hearts, value := 3 }], score := 4 } ∧
     some ({ suit := Suit.Hearts, value := 3 } : Card) ∈
        [some ({ suit := Suit.Hearts, value := 3 } : Card)] ∧
     ({ suit := Suit.Hearts, value := 3 } : Card).value =
        ({ suit := Suit.Diamonds, value := 3 } : Card).value) ∧
    drawButtonDisabled matchState = true :=
  ⟨⟨by decide, by decide, by decide, by decide⟩,
    draw_disabled_on_match matchState { suit := Suit.Diamonds, value := 3 }
      { id := "player1", name := "Player 1",
        hand := [some { suit := Suit.Hearts, value := 3 }], score := 4 }
      { suit := Suit.Hearts, value := 3 }
      (by decide) (by decide) (by decide) (by decide)⟩

/-- The score of the i-th player (0 past the end, never reached in use). -/
def scoreAt (ps : List Player) (i : Nat) : Nat :=
  (ps.map Player.score).getD i 0

theorem scoreAt_congr {ps qs : List Player}
    (h : ps.map Player.score = qs.map Player.score) (i : Nat) :
    scoreAt ps i = scoreAt qs i := by
  unfold scoreAt
  rw [h]

theorem startNewRound_scores (rand : Nat → Bool) (s : GameState) :
    (startNewRound rand s).players.map Player.score = s.players.map Player.score := by
  unfold startNewRound
  by_cases hcond : s.currentRound ≥ s.numRounds
  · rw [if_pos hcond]
    rfl
  · rw [if_neg hcond]
    show (dealRounds 5 (s.players.map fun p => { p with hand := [] })
        (initializeDeck rand)).1.map Player.score = s.players.map Player.score
    rw [dealRounds_scores, List.map_map]
    rfl

theorem startNewRound_currentRound (rand : Nat → Bool) (s : GameState) :
    (startNewRound rand s).currentRound = s.currentRound + 1 := by
  unfold startNewRound
  by_cases hcond : s.currentRound ≥ s.numRounds
  · rw [if_pos hcond]
    rfl
  · rw [if_neg hcond]

theorem bumpScore_length (ps : List Player) (i : Nat) :
    (bumpScore ps i).length = ps.length := by
  induction ps generalizing i with
  | nil => rfl
  | cons p ps ih =>
      cases i with
      | zero => rfl
      | succ n => simp [bumpScore, ih]

theorem scoreAt_bumpScore_self (ps : List Player) (i : Nat) (h : i < ps.length) :
    scoreAt (bumpScore ps i) i = scoreAt ps i + 4 := by
  induction ps generalizing i with
  | nil => simp at h
  | cons p ps ih =>
      cases i with
      | zero => rfl
      | succ n =>
          have hn : n < ps.length := by simpa using h
          exact ih n hn

theorem scoreAt_bumpScore_other (ps : List Player) (i j : Nat) (h : j ≠ i) :
    scoreAt (bumpScore ps i) j = scoreAt ps j := by
  induction ps generalizing i j with
  | nil => rfl
  | cons p ps ih =>
      cases i with
      | zero =>
          cases j with
          | zero => exact absurd rfl h
          | succ m => rfl
      | succ n =>
          cases j with
          | zero => rfl
          | succ m => exact ih n m (fun he => h (by rw [he]))

/-- C10: when the current player index is valid, `handlePlayerWin` adds
exactly 4 points to the current player's score, leaves every other score
unchanged (scores never decrease, and as naturals they are non-negative),
and begins the next round; and `handleStartGame` initialises every score
to 0. -/
theorem handlePlayerWin_scores (rand : Nat → Bool) (s : GameState)
    (h : s.currentPlayer < s.players.length) :
    (handlePlayerWin rand s).players.length = s.players.length ∧
    scoreAt (handlePlayerWin rand s).players s.currentPlayer
      = scoreAt s.players s.currentPlayer + 4 ∧
    (∀ i, i ≠ s.currentPlayer →
      scoreAt (handlePlayerWin rand s).players i = scoreAt s.players i) ∧
    (∀ i, scoreAt s.players i ≤ scoreAt (handlePlayerWin rand s).players i) ∧
    (handlePlayerWin rand s).currentRound = s.currentRound + 1 ∧
    (∀ p ∈ (handleStartGame rand s).players, p.score = 0) := by
  have hmap : (handlePlayerWin rand s).players.map Player.score
      = (bumpScore s.players s.currentPlayer).map Player.score := by
    unfold handlePlayerWin
    exact startNewRound_scores rand _
  have hsc : ∀ i, scoreAt (handlePlayerWin rand s).players i
      = scoreAt (bumpScore s.players s.currentPlayer) i :=
    fun i => scoreAt_congr hmap i
  refine ⟨?_, ?_, ?_, ?_, ?_, ?_⟩
  · have h1 := congrArg List.length hmap
    simp only [List.length_map] at h1
    rw [h1, bumpScore_length]
  · rw [hsc]
    exact scoreAt_bumpScore_self s.players s.currentPlayer h
  · intro i hi
    rw [hsc]
    exact scoreAt_bumpScore_other s.players s.currentPlayer i hi
  · intro i
    by_cases hi : i = s.currentPlayer
    · subst hi
      rw [hsc, scoreAt_bumpScore_self s.players s.currentPlayer h]
      omega
    · rw [hsc, scoreAt_bumpScore_other s.players s.currentPlayer i hi]
  · unfold handlePlayerWin
    simpa using startNewRound_currentRound rand
      { s with players := bumpScore s.players s.currentPlayer }
  · intro p hp
    have hmem : p.score ∈ (handleStartGame rand s).players.map Player.score :=
      List.mem_map_of_mem _ hp
    have hsg : (handleStartGame rand s).players.map Player.score
        = (mkPlayers s.numPlayers).map Player.score := by
      unfold handleStartGame
      exact dealRounds_scores 5 _ _
    rw [hsg] at hmem
    simp only [mkPlayers, List.map_map, List.mem_map] at hmem
    obtain ⟨i, _, hi⟩ := hmem
    exact hi.symm

/-- C10 witness: at the concrete in-progress state, player 0 wins the round
and gains exactly 4 points while player 1's score is unchanged. -/
theorem handlePlayerWin_scores_witness :
    roundState.currentPlayer < roundState.players.length ∧
    ((handlePlayerWin (fun _ => true) roundState).players.length
        = roundState.players.length ∧
     scoreAt (handlePlayerWin (fun _ => true) roundState).players roundState.currentPlayer
        = scoreAt roundState.players roundState.currentPlayer + 4 ∧
     (∀ i, i ≠ roundState.currentPlayer →
        scoreAt (handlePlayerWin (fun _ => true) roundState).players i
          = scoreAt roundState.players i) ∧
     (∀ i, scoreAt roundState.players i
        ≤ scoreAt (handlePlayerWin (fun _ => true) roundState).players i) ∧
     (handlePlayerWin (fun _ => true) roundState).currentRound
        = roundState.currentRound + 1 ∧
     (∀ p ∈ (handleStartGame (fun _ => true) roundState).players, p.score = 0)) :=
  ⟨by decide, handlePlayerWin_scores (fun _ => true) roundState (by decide)⟩

/-- A non-ending session state holding an 11-player roster, as
`handleStartGame` can create when the setup input is typed past its HTML
max of 8. -/
def elevenState : GameState :=
  { baseState with players := mkPlayers 11, numPlayers := 11 }

/-- C4 counterexample: on an 11-player non-ending state, dealing 5 cards
each exhausts the 52-card fresh deck, so `startNewRound` sets the table card
to `undefined` (none) instead of removing a card from the new deck. -/
theorem startNewRound_eleven_no_table :
    elevenState.currentRound < elevenState.numRounds ∧
    (startNewRound (fun _ => false) elevenState).tableCard = none := by
  set_option maxRecDepth 10000 in decide
